import Mathlib

/-
  Verification of the BSP tree engine of the PengWM repository
  (src/bsp.c, src/bsp.h) against its natural-language specification.

  The C code is shallowly embedded: the BSPNode struct becomes an
  inductive tree (the parent back-pointer becomes an explicit path
  from the root, a list of child selectors), CGRect becomes a record
  of rationals (CGFloat arithmetic in the code only ever adds and
  halves, which is exact), and the in-place mutations of bsp.c become
  pure functions returning the updated tree.
-/

namespace PengWM

/-- Rectangle in display coordinates, mirroring CGRect as used by bsp.c:
    origin x, origin y, width, height. -/
structure CGRect where
  x : ℚ
  y : ℚ
  w : ℚ
  h : ℚ
  deriving DecidableEq, Repr

/-- BSPNode from bsp.h. A node is either a leaf (is_leaf = true,
    children NULL) or an internal node (is_leaf = false, two children).
    window_id = -1 marks "no window" in the code, and internal nodes
    also carry the field (bsp.c keeps window_id on every node and
    collapse copies it). The parent pointer of the C struct is not a
    field here: a node is addressed by its path from the root. -/
inductive BSPNode where
  | leaf (window_id : ℤ) (rect : CGRect)
  | inner (split_vertical : Bool) (window_id : ℤ) (rect : CGRect)
      (first second : BSPNode)
  deriving DecidableEq, Repr

/-- bsp_create_root from bsp.c: a single empty leaf spanning the screen
    rectangle, window_id = -1. -/
def bsp_create_root (screen_rect : CGRect) : BSPNode :=
  BSPNode.leaf (-1) screen_rect

/-- Rectangle stored at the root of a (sub)tree. -/
def rootRect : BSPNode → CGRect
  | BSPNode.leaf _ r => r
  | BSPNode.inner _ _ r _ _ => r

/-- bsp_split_leaf from bsp.c. On an internal node the code returns
    without change; on a leaf it splits vertically when width > height
    (strict), otherwise horizontally, bisecting exactly in half. The
    first child keeps the old window id, the second gets the new one,
    and the node itself becomes internal with window_id = -1. -/
def bsp_split_leaf : BSPNode → ℤ → BSPNode
  | BSPNode.inner sv wid r f s, _ => BSPNode.inner sv wid r f s
  | BSPNode.leaf wid r, nw =>
    if r.w > r.h then
      BSPNode.inner true (-1) r
        (BSPNode.leaf wid ⟨r.x, r.y, r.w / 2, r.h⟩)
        (BSPNode.leaf nw ⟨r.x + r.w / 2, r.y, r.w / 2, r.h⟩)
    else
      BSPNode.inner false (-1) r
        (BSPNode.leaf wid ⟨r.x, r.y, r.w, r.h / 2⟩)
        (BSPNode.leaf nw ⟨r.x, r.y + r.h / 2, r.w, r.h / 2⟩)

/-- bsp_insert from bsp.c: recurse into the first child while internal;
    at a leaf, occupy it when empty (window_id = -1), otherwise split. -/
def bsp_insert : BSPNode → ℤ → BSPNode
  | BSPNode.leaf wid r, w =>
    if wid = -1 then BSPNode.leaf w r else bsp_split_leaf (BSPNode.leaf wid r) w
  | BSPNode.inner sv wid r f s, w =>
    BSPNode.inner sv wid r (bsp_insert f w) s

/-- Empty-leaf test used by bsp_collapse_empty_branches
    (child->is_leaf && child->window_id == -1). -/
def isEmptyLeaf : BSPNode → Bool
  | BSPNode.leaf wid _ => wid == -1
  | BSPNode.inner _ _ _ _ _ => false

/-- bsp_collapse_empty_branches from bsp.c: when exactly one child of an
    internal node is an empty leaf, the node takes over the is_leaf,
    window_id, split_vertical and children of the other child; the node
    keeps its own rect field (the code never copies rect). -/
def bsp_collapse_empty_branches : BSPNode → BSPNode
  | BSPNode.leaf wid r => BSPNode.leaf wid r
  | BSPNode.inner sv wid r f s =>
    if isEmptyLeaf f && !isEmptyLeaf s then
      match s with
      | BSPNode.leaf wid2 _ => BSPNode.leaf wid2 r
      | BSPNode.inner sv2 wid2 _ f2 s2 => BSPNode.inner sv2 wid2 r f2 s2
    else if isEmptyLeaf s && !isEmptyLeaf f then
      match f with
      | BSPNode.leaf wid2 _ => BSPNode.leaf wid2 r
      | BSPNode.inner sv2 wid2 _ f2 s2 => BSPNode.inner sv2 wid2 r f2 s2
    else BSPNode.inner sv wid r f s

/-- bsp_remove_window from bsp.c: at a leaf, clear on match; at an
    internal node, try the first child then (only if that failed) the
    second, and after a successful removal run the collapse check on
    this node. Returns the found flag together with the updated tree. -/
def bsp_remove_window : BSPNode → ℤ → Bool × BSPNode
  | BSPNode.leaf wid r, w =>
    if wid = w then (true, BSPNode.leaf (-1) r) else (false, BSPNode.leaf wid r)
  | BSPNode.inner sv wid r f s, w =>
    match bsp_remove_window f w with
    | (true, f2) => (true, bsp_collapse_empty_branches (BSPNode.inner sv wid r f2 s))
    | (false, _) =>
      match bsp_remove_window s w with
      | (true, s2) => (true, bsp_collapse_empty_branches (BSPNode.inner sv wid r f s2))
      | (false, _) => (false, BSPNode.inner sv wid r f s)

/-- Window ids of all leaves in depth-first first-then-second order
    (the search order of bsp_remove_window, bsp_find_node_for_window
    and bsp_traverse). Empty leaves contribute their -1 marker. -/
def leafIds : BSPNode → List ℤ
  | BSPNode.leaf wid _ => [wid]
  | BSPNode.inner _ _ _ f s => leafIds f ++ leafIds s

/-- Number of leaves currently holding a given window id. -/
def countWith (t : BSPNode) (w : ℤ) : ℕ :=
  (leafIds t).count w

/-- Tree with every window id blanked to 0: two trees with the same
    eraseIds image have the same shape, rectangles and orientations. -/
def eraseIds : BSPNode → BSPNode
  | BSPNode.leaf _ r => BSPNode.leaf 0 r
  | BSPNode.inner sv _ r f s => BSPNode.inner sv 0 r (eraseIds f) (eraseIds s)

/-- Address of a node relative to the root: false selects the first
    child, true the second. Plays the role of the parent back-pointers
    of bsp.h (walking up a pointer chain = dropping path elements). -/
def nodeAt : BSPNode → List Bool → Option BSPNode
  | t, [] => some t
  | BSPNode.leaf _ _, _ :: _ => none
  | BSPNode.inner _ _ _ f _, false :: p => nodeAt f p
  | BSPNode.inner _ _ _ _ s, true :: p => nodeAt s p

/-- bsp_find_leftmost_leaf: descend into the first child while internal
    (returned here as the path of the leaf below the given subtree). -/
def leftmostPath : BSPNode → List Bool
  | BSPNode.leaf _ _ => []
  | BSPNode.inner _ _ _ f _ => false :: leftmostPath f

/-- bsp_find_rightmost_leaf: descend into the second child while internal. -/
def rightmostPath : BSPNode → List Bool
  | BSPNode.leaf _ _ => []
  | BSPNode.inner _ _ _ _ s => true :: rightmostPath s

/-- bsp_find_topmost_leaf: descend into the first child while internal. -/
def topmostPath : BSPNode → List Bool
  | BSPNode.leaf _ _ => []
  | BSPNode.inner _ _ _ f _ => false :: topmostPath f

/-- bsp_find_bottommost_leaf: descend into the second child while internal. -/
def bottommostPath : BSPNode → List Bool
  | BSPNode.leaf _ _ => []
  | BSPNode.inner _ _ _ _ s => true :: bottommostPath s

/-- Upward walk of bsp_find_right_neighbor. The argument is the
    reversed path of the current node, so its head is the edge to the
    immediate parent. At a vertical-split parent entered from the first
    child, return the leftmost leaf of the second child; otherwise
    continue with the parent. -/
def upSearchRight (t : BSPNode) : List Bool → Option (List Bool)
  | [] => none
  | b :: rest =>
    match nodeAt t rest.reverse with
    | some (BSPNode.inner true _ _ _ s) =>
      if b = false then some (rest.reverse ++ true :: leftmostPath s)
      else upSearchRight t rest
    | _ => upSearchRight t rest

/-- Upward walk of bsp_find_left_neighbor: at a vertical-split parent
    entered from the second child, return the rightmost leaf of the
    first child. -/
def upSearchLeft (t : BSPNode) : List Bool → Option (List Bool)
  | [] => none
  | b :: rest =>
    match nodeAt t rest.reverse with
    | some (BSPNode.inner true _ _ f _) =>
      if b = true then some (rest.reverse ++ false :: rightmostPath f)
      else upSearchLeft t rest
    | _ => upSearchLeft t rest

/-- Upward walk of bsp_find_up_neighbor: at a horizontal-split parent
    entered from the second (bottom) child, return the bottommost leaf
    of the first child. -/
def upSearchUp (t : BSPNode) : List Bool → Option (List Bool)
  | [] => none
  | b :: rest =>
    match nodeAt t rest.reverse with
    | some (BSPNode.inner false _ _ f _) =>
      if b = true then some (rest.reverse ++ false :: bottommostPath f)
      else upSearchUp t rest
    | _ => upSearchUp t rest

/-- Upward walk of bsp_find_down_neighbor: at a horizontal-split parent
    entered from the first (top) child, return the topmost leaf of the
    second child. -/
def upSearchDown (t : BSPNode) : List Bool → Option (List Bool)
  | [] => none
  | b :: rest =>
    match nodeAt t rest.reverse with
    | some (BSPNode.inner false _ _ _ s) =>
      if b = false then some (rest.reverse ++ true :: topmostPath s)
      else upSearchDown t rest
    | _ => upSearchDown t rest

/-- bsp_find_left_neighbor applied to the node at path p of tree t. -/
def bsp_find_left_neighbor (t : BSPNode) (p : List Bool) : Option (List Bool) :=
  upSearchLeft t p.reverse

/-- bsp_find_right_neighbor applied to the node at path p of tree t. -/
def bsp_find_right_neighbor (t : BSPNode) (p : List Bool) : Option (List Bool) :=
  upSearchRight t p.reverse

/-- bsp_find_up_neighbor applied to the node at path p of tree t. -/
def bsp_find_up_neighbor (t : BSPNode) (p : List Bool) : Option (List Bool) :=
  upSearchUp t p.reverse

/-- bsp_find_down_neighbor applied to the node at path p of tree t. -/
def bsp_find_down_neighbor (t : BSPNode) (p : List Bool) : Option (List Bool) :=
  upSearchDown t p.reverse

/-- bsp_find_neighbor from bsp.c: dispatch on the FIRST character of
    the direction string only (switch on direction[0]); an empty string
    (first byte NUL) and any other first character fall to the default
    branch returning NULL. -/
def bsp_find_neighbor (t : BSPNode) (p : List Bool) (direction : String) :
    Option (List Bool) :=
  match direction.data with
  | [] => none
  | c :: _ =>
    if c = 'l' then bsp_find_left_neighbor t p
    else if c = 'r' then bsp_find_right_neighbor t p
    else if c = 'u' then bsp_find_up_neighbor t p
    else if c = 'd' then bsp_find_down_neighbor t p
    else none

/-- Apply a tree transformation to the subtree at a given path,
    leaving the rest of the tree unchanged (how a C caller invokes a
    bsp.c mutation on an interior node through a pointer). A path that
    leaves the tree is a no-op. -/
def applyAt : List Bool → (BSPNode → BSPNode) → BSPNode → BSPNode
  | [], g, t => g t
  | _ :: _, _, BSPNode.leaf wid r => BSPNode.leaf wid r
  | false :: p, g, BSPNode.inner sv wid r f s =>
    BSPNode.inner sv wid r (applyAt p g f) s
  | true :: p, g, BSPNode.inner sv wid r f s =>
    BSPNode.inner sv wid r f (applyAt p g s)

/-- One mutation of the bsp.c API, applied at an arbitrary node of the
    tree (addressed by its path from the root). -/
inductive WMOp where
  | insertAt (p : List Bool) (w : ℤ)
  | removeAt (p : List Bool) (w : ℤ)
  | splitAt (p : List Bool) (w : ℤ)
  | collapseAt (p : List Bool)
  deriving DecidableEq, Repr

/-- Effect of one mutation on the tree. -/
def applyOp (t : BSPNode) : WMOp → BSPNode
  | WMOp.insertAt p w => applyAt p (fun n => bsp_insert n w) t
  | WMOp.removeAt p w => applyAt p (fun n => (bsp_remove_window n w).2) t
  | WMOp.splitAt p w => applyAt p (fun n => bsp_split_leaf n w) t
  | WMOp.collapseAt p => applyAt p bsp_collapse_empty_branches t

/-- Effect of a sequence of mutations. -/
def applyOps (t : BSPNode) (ops : List WMOp) : BSPNode :=
  ops.foldl applyOp t

/-- Insert a list of window ids at the root, left to right. -/
def insertAll (t : BSPNode) (ws : List ℤ) : BSPNode :=
  ws.foldl bsp_insert t

/-- Remove a list of window ids at the root, left to right. -/
def removeAll (t : BSPNode) (ws : List ℤ) : BSPNode :=
  ws.foldl (fun u w => (bsp_remove_window u w).2) t

/-- Tiling invariant of the specification, as a decidable check:
    every leaf rectangle has positive width and height, and the two
    children of an internal node exactly partition its rectangle along
    the stated orientation (no gap, no overlap). -/
def tilingOK : BSPNode → Bool
  | BSPNode.leaf _ r => decide (0 < r.w) && decide (0 < r.h)
  | BSPNode.inner sv _ r f s =>
    (if sv then
      decide ((rootRect f).x = r.x ∧ (rootRect f).y = r.y ∧
        (rootRect f).h = r.h ∧ (rootRect s).y = r.y ∧
        (rootRect s).h = r.h ∧ (rootRect s).x = r.x + (rootRect f).w ∧
        (rootRect f).w + (rootRect s).w = r.w)
    else
      decide ((rootRect f).x = r.x ∧ (rootRect f).y = r.y ∧
        (rootRect f).w = r.w ∧ (rootRect s).x = r.x ∧
        (rootRect s).w = r.w ∧ (rootRect s).y = r.y + (rootRect f).h ∧
        (rootRect f).h + (rootRect s).h = r.h)) &&
    tilingOK f && tilingOK s

/-- Literal mirror of the BSPNode struct for the allocation-failure
    analysis of bsp_split_leaf: all fields of bsp.h are present and the
    child pointers may be NULL (none). -/
inductive CNode where
  | mk (is_leaf : Bool) (window_id : ℤ) (rect : CGRect) (split_vertical : Bool)
      (first second : Option CNode)

/-- The is_leaf field of a CNode. -/
def CNode.isLeafFlag : CNode → Bool
  | CNode.mk il _ _ _ _ _ => il

/-- The window_id field of a CNode. -/
def CNode.windowId : CNode → ℤ
  | CNode.mk _ wid _ _ _ _ => wid

/-- The first-child pointer of a CNode. -/
def CNode.firstChild : CNode → Option CNode
  | CNode.mk _ _ _ _ f _ => f

/-- The second-child pointer of a CNode. -/
def CNode.secondChild : CNode → Option CNode
  | CNode.mk _ _ _ _ _ s => s

/-- bsp_split_leaf from bsp.c traced statement by statement, with the
    outcome of the two calloc calls supplied as oracles (true = the
    allocation succeeds). The code first sets is_leaf = false and
    split_vertical on the node, then allocates the first child
    (returning on failure), then the second (freeing the first and
    returning on failure), and only on full success attaches the
    children and clears window_id to -1. -/
def bsp_split_leaf_alloc (alloc1 alloc2 : Bool) (nw : ℤ) : CNode → CNode
  | CNode.mk il wid r sv f s =>
    if il = false then CNode.mk il wid r sv f s
    else
      let newSv := decide (r.w > r.h)
      let r1 : CGRect :=
        if newSv then ⟨r.x, r.y, r.w / 2, r.h⟩ else ⟨r.x, r.y, r.w, r.h / 2⟩
      let r2 : CGRect :=
        if newSv then ⟨r.x + r.w / 2, r.y, r.w / 2, r.h⟩
        else ⟨r.x, r.y + r.h / 2, r.w, r.h / 2⟩
      if alloc1 = false then CNode.mk false wid r newSv f s
      else if alloc2 = false then CNode.mk false wid r newSv f s
      else CNode.mk false (-1) r newSv
        (some (CNode.mk true wid r1 false none none))
        (some (CNode.mk true nw r2 false none none))

/-- Demonstration screen rectangle used by the scenario of the spec
    (root rect (0,0,800,600)). -/
def demoRect : CGRect := ⟨0, 0, 800, 600⟩

/-- Tree obtained by inserting windows 1 and 2 into an empty 800x600
    root: a vertical split with window 1 left and window 2 right. -/
def demoTree2 : BSPNode := insertAll (bsp_create_root demoRect) [1, 2]

/-- Tree obtained by inserting windows 1, 2 and 3 into an empty 800x600
    root: the left half is further split horizontally (window 1 on top,
    window 3 below), window 2 holds the right half. -/
def demoTree3 : BSPNode := insertAll (bsp_create_root demoRect) [1, 2, 3]

/-- Every leaf of the tree is occupied (no leaf carries the -1 marker). -/
def allLeavesOccupied (t : BSPNode) : Prop :=
  ∀ z ∈ leafIds t, z ≠ -1

/-- Precondition under which a mutation keeps window ids unique: ids
    given to bsp_insert or bsp_split_leaf must differ from the -1
    marker and must not currently occur in any leaf. Removal and
    collapse are unrestricted. -/
def goodOp (t : BSPNode) : WMOp → Prop
  | WMOp.insertAt _ w => w ≠ -1 ∧ countWith t w = 0
  | WMOp.splitAt _ w => w ≠ -1 ∧ countWith t w = 0
  | WMOp.removeAt _ _ => True
  | WMOp.collapseAt _ => True

/-- A sequence of mutations each of which satisfies goodOp in the state
    it is applied to. -/
inductive GoodSeq : BSPNode → List WMOp → Prop
  | nil (t : BSPNode) : GoodSeq t []
  | cons {t : BSPNode} {op : WMOp} {ops : List WMOp} :
      goodOp t op → GoodSeq (applyOp t op) ops → GoodSeq t (op :: ops)

/-- Computed literal form of demoTree2. -/
lemma demoTree2_lit :
    demoTree2 =
      BSPNode.inner true (-1) ⟨0, 0, 800, 600⟩
        (BSPNode.leaf 1 ⟨0, 0, 400, 600⟩)
        (BSPNode.leaf 2 ⟨400, 0, 400, 600⟩) := by
  norm_num [demoTree2, insertAll, bsp_create_root, bsp_insert, bsp_split_leaf,
    demoRect]

/-- Computed literal form of demoTree3. -/
lemma demoTree3_lit :
    demoTree3 =
      BSPNode.inner true (-1) ⟨0, 0, 800, 600⟩
        (BSPNode.inner false (-1) ⟨0, 0, 400, 600⟩
          (BSPNode.leaf 1 ⟨0, 0, 400, 300⟩)
          (BSPNode.leaf 3 ⟨0, 300, 400, 300⟩))
        (BSPNode.leaf 2 ⟨400, 0, 400, 600⟩) := by
  norm_num [demoTree3, insertAll, bsp_create_root, bsp_insert, bsp_split_leaf,
    demoRect]

/-- Computed literal form of the C1 scenario: insert windows 1, 2, 3
    and then remove window 2, all at the root. -/
lemma demoRemove2_lit :
    applyOps (bsp_create_root demoRect)
        [WMOp.insertAt [] 1, WMOp.insertAt [] 2, WMOp.insertAt [] 3,
         WMOp.removeAt [] 2] =
      BSPNode.inner false (-1) ⟨0, 0, 800, 600⟩
        (BSPNode.leaf 1 ⟨0, 0, 400, 300⟩)
        (BSPNode.leaf 3 ⟨0, 300, 400, 300⟩) := by
  norm_num [applyOps, applyOp, applyAt, bsp_create_root, bsp_insert,
    bsp_split_leaf, bsp_remove_window, bsp_collapse_empty_branches,
    isEmptyLeaf, demoRect]

/-- Every tree has at least one leaf. -/
lemma leafIds_ne_nil (t : BSPNode) : leafIds t ≠ [] := by
  induction t with
  | leaf wid r => simp [leafIds]
  | inner sv wid r f s ihf ihs =>
    simp only [leafIds, ne_eq, List.append_eq_nil]
    intro h
    exact ihf h.1

/-- bsp_remove_window with an id held by no leaf returns false and the
    unchanged tree (helper form, shared by several developments). -/
lemma remove_not_found (t : BSPNode) (w : ℤ) (hw : w ∉ leafIds t) :
    bsp_remove_window t w = (false, t) := by
  induction t with
  | leaf wid r =>
    have hne : wid ≠ w := by
      intro h
      exact hw (by simp [leafIds, h])
    simp [bsp_remove_window, hne]
  | inner sv wid r f s ihf ihs =>
    rw [leafIds] at hw
    simp only [List.mem_append, not_or] at hw
    simp [bsp_remove_window, ihf hw.1, ihs hw.2]

/-- bsp_split_leaf never changes the rectangle of the node it is called
    on. -/
lemma rootRect_split (t : BSPNode) (w : ℤ) :
    rootRect (bsp_split_leaf t w) = rootRect t := by
  cases t with
  | leaf wid r => simp only [bsp_split_leaf]; split <;> rfl
  | inner sv wid r f s => rfl

/-- bsp_insert never changes the rectangle of the node it is called on. -/
lemma rootRect_insert (t : BSPNode) (w : ℤ) :
    rootRect (bsp_insert t w) = rootRect t := by
  cases t with
  | leaf wid r =>
    by_cases h : wid = -1
    · simp [bsp_insert, h, rootRect]
    · simp only [bsp_insert, if_neg h]
      exact rootRect_split (BSPNode.leaf wid r) w
  | inner sv wid r f s => rfl

/-- bsp_collapse_empty_branches never changes the rectangle of the node
    it is called on (the code copies is_leaf, window_id, split_vertical
    and the children of the promoted child, but not its rect). -/
lemma rootRect_collapse (t : BSPNode) :
    rootRect (bsp_collapse_empty_branches t) = rootRect t := by
  cases t with
  | leaf wid r => rfl
  | inner sv wid r f s =>
    simp only [bsp_collapse_empty_branches]
    split_ifs
    · cases s <;> rfl
    · cases f <;> rfl
    · rfl

/-- bsp_remove_window never changes the rectangle of the node it is
    called on. -/
lemma rootRect_remove (t : BSPNode) (w : ℤ) :
    rootRect (bsp_remove_window t w).2 = rootRect t := by
  cases t with
  | leaf wid r => by_cases h : wid = w <;> simp [bsp_remove_window, h, rootRect]
  | inner sv wid r f s =>
    simp only [bsp_remove_window]
    rcases h1 : bsp_remove_window f w with ⟨b1, f2⟩
    cases b1 with
    | true => simpa [rootRect] using rootRect_collapse (BSPNode.inner sv wid r f2 s)
    | false =>
      rcases h2 : bsp_remove_window s w with ⟨b2, s2⟩
      cases b2 with
      | true => simpa [rootRect] using rootRect_collapse (BSPNode.inner sv wid r f s2)
      | false => rfl

/-- applyAt with a rect-preserving transformation preserves the root
    rectangle. -/
lemma rootRect_applyAt (p : List Bool) (g : BSPNode → BSPNode) (t : BSPNode)
    (hg : ∀ u, rootRect (g u) = rootRect u) :
    rootRect (applyAt p g t) = rootRect t := by
  cases p with
  | nil => exact hg t
  | cons b pr =>
    cases t with
    | leaf wid r => cases b <;> rfl
    | inner sv wid r f s => cases b <;> rfl

/-- Every bsp.c mutation preserves the root rectangle. -/
lemma rootRect_applyOp (t : BSPNode) (op : WMOp) :
    rootRect (applyOp t op) = rootRect t := by
  cases op with
  | insertAt p w => exact rootRect_applyAt p _ t (fun u => rootRect_insert u w)
  | removeAt p w => exact rootRect_applyAt p _ t (fun u => rootRect_remove u w)
  | splitAt p w => exact rootRect_applyAt p _ t (fun u => rootRect_split u w)
  | collapseAt p => exact rootRect_applyAt p _ t rootRect_collapse

/-- Sequences of mutations preserve the root rectangle. -/
lemma rootRect_applyOps (t : BSPNode) (ops : List WMOp) :
    rootRect (applyOps t ops) = rootRect t := by
  induction ops generalizing t with
  | nil => rfl
  | cons op ops ih =>
    calc rootRect (applyOps (applyOp t op) ops)
        = rootRect (applyOp t op) := ih (applyOp t op)
      _ = rootRect t := rootRect_applyOp t op

/-- Characterization of one bsp_insert: the affected leaf is the first
    leaf in depth-first order (insert always descends into the first
    child). If it is empty it is filled in place and the shape of the
    tree is untouched; if it is occupied it is split and the new id is
    inserted right after it in leaf order. -/
lemma insert_leafIds (t : BSPNode) (w : ℤ) :
    ∃ wid rest, leafIds t = wid :: rest ∧
      ((wid = -1 ∧ leafIds (bsp_insert t w) = w :: rest ∧
        eraseIds (bsp_insert t w) = eraseIds t) ∨
       (wid ≠ -1 ∧ leafIds (bsp_insert t w) = wid :: w :: rest)) := by
  induction t with
  | leaf wid r =>
    refine ⟨wid, [], rfl, ?_⟩
    by_cases h : wid = -1
    · exact Or.inl ⟨h, by simp [bsp_insert, h, leafIds],
        by simp [bsp_insert, h, eraseIds]⟩
    · refine Or.inr ⟨h, ?_⟩
      simp only [bsp_insert, if_neg h, bsp_split_leaf]
      split <;> simp [leafIds]
  | inner sv wid r f s ihf ihs =>
    obtain ⟨wid0, rest, hids, hcase⟩ := ihf
    rcases hcase with ⟨h1, h2, h3⟩ | ⟨h1, h2⟩
    · exact ⟨wid0, rest ++ leafIds s, by simp [leafIds, hids],
        Or.inl ⟨h1, by simp [bsp_insert, leafIds, h2],
          by simp [bsp_insert, eraseIds, h3]⟩⟩
    · exact ⟨wid0, rest ++ leafIds s, by simp [leafIds, hids],
        Or.inr ⟨h1, by simp [bsp_insert, leafIds, h2]⟩⟩

/-- Count form of insert_leafIds: for ids other than the -1 marker, one
    bsp_insert of w adds exactly one occurrence of w and leaves the
    count of every other id unchanged. -/
lemma insert_countWith (t : BSPNode) (w z : ℤ) (hz : z ≠ -1) :
    countWith (bsp_insert t w) z = countWith t z + if z = w then 1 else 0 := by
  obtain ⟨wid, rest, hids, hcase⟩ := insert_leafIds t w
  have hm : ((-1 : ℤ) == z) = false :=
    beq_eq_false_iff_ne.mpr (fun h => hz h.symm)
  rcases hcase with ⟨h1, h2, _⟩ | ⟨h1, h2⟩
  · rw [countWith, countWith, hids, h2, h1]
    by_cases hzw : z = w
    · subst hzw
      simp [List.count_cons, hm]
    · have hwz : (w == z) = false := beq_eq_false_iff_ne.mpr (fun h => hzw h.symm)
      simp [List.count_cons, hm, hwz, hzw]
  · rw [countWith, countWith, hids, h2]
    by_cases hzw : z = w
    · subst hzw
      simp [List.count_cons]
      omega
    · have hwz : (w == z) = false := beq_eq_false_iff_ne.mpr (fun h => hzw h.symm)
      simp [List.count_cons, hwz, hzw]

/-- C1: the tiling invariant is claimed to hold after every sequence of
    bsp_insert and bsp_remove_window on a root created by
    bsp_create_root. It does not: inserting windows 1, 2, 3 into an
    800x600 root and then removing window 2 makes
    bsp_collapse_empty_branches promote the internal left child without
    rescaling its subtree, leaving the root (rect 800x600) with two
    400x300 children that do not partition it. The insert-only tree
    still satisfies the invariant, isolating the defect in collapse. -/
theorem collapse_breaks_tiling_invariant :
    applyOps (bsp_create_root demoRect)
        [WMOp.insertAt [] 1, WMOp.insertAt [] 2, WMOp.insertAt [] 3,
         WMOp.removeAt [] 2] =
      BSPNode.inner false (-1) ⟨0, 0, 800, 600⟩
        (BSPNode.leaf 1 ⟨0, 0, 400, 300⟩)
        (BSPNode.leaf 3 ⟨0, 300, 400, 300⟩) ∧
    tilingOK (applyOps (bsp_create_root demoRect)
        [WMOp.insertAt [] 1, WMOp.insertAt [] 2, WMOp.insertAt [] 3,
         WMOp.removeAt [] 2]) = false ∧
    tilingOK (applyOps (bsp_create_root demoRect)
        [WMOp.insertAt [] 1, WMOp.insertAt [] 2, WMOp.insertAt [] 3]) = true := by
  have h3 : applyOps (bsp_create_root demoRect)
      [WMOp.insertAt [] 1, WMOp.insertAt [] 2, WMOp.insertAt [] 3] = demoTree3 := by
    norm_num [applyOps, applyOp, applyAt, demoTree3, insertAll]
  refine ⟨demoRemove2_lit, ?_, ?_⟩
  · rw [demoRemove2_lit]
    norm_num [tilingOK, rootRect]
  · rw [h3, demoTree3_lit]
    norm_num [tilingOK, rootRect]

/-- C4: the claim says a failed allocation inside bsp_split_leaf leaves
    the leaf and the tree exactly as before the call. The code sets
    is_leaf = false (and split_vertical) before either calloc, and the
    two failure paths return without restoring them, so an occupied
    100x100 leaf holding window 7 comes back as a childless internal
    node that still carries window_id 7 - for a failure of the first
    allocation and of the second alike. -/
theorem split_alloc_failure_corrupts_leaf :
    bsp_split_leaf_alloc false true 9
        (CNode.mk true 7 ⟨0, 0, 100, 100⟩ false none none) =
      CNode.mk false 7 ⟨0, 0, 100, 100⟩ false none none ∧
    bsp_split_leaf_alloc true false 9
        (CNode.mk true 7 ⟨0, 0, 100, 100⟩ false none none) =
      CNode.mk false 7 ⟨0, 0, 100, 100⟩ false none none ∧
    bsp_split_leaf_alloc false true 9
        (CNode.mk true 7 ⟨0, 0, 100, 100⟩ false none none) ≠
      CNode.mk true 7 ⟨0, 0, 100, 100⟩ false none none := by
  refine ⟨rfl, rfl, fun h => ?_⟩
  exact Bool.noConfusion (congrArg CNode.isLeafFlag h)

/-- C5: bsp_split_leaf splits vertically (halving the width) exactly
    when the rectangle of the leaf is strictly wider than tall, and
    horizontally (halving the height) otherwise, ties included; both
    halves are exact and the first child keeps the old window. In
    particular a 200x100 leaf splits vertically into two 100x100
    children side by side, a 100x200 leaf splits horizontally into two
    100x100 children stacked, and a 100x100 leaf splits horizontally. -/
theorem split_orientation_and_halving :
    ∀ (wid : ℤ) (r : CGRect) (nw : ℤ),
    (r.h < r.w → bsp_split_leaf (BSPNode.leaf wid r) nw =
      BSPNode.inner true (-1) r
        (BSPNode.leaf wid ⟨r.x, r.y, r.w / 2, r.h⟩)
        (BSPNode.leaf nw ⟨r.x + r.w / 2, r.y, r.w / 2, r.h⟩)) ∧
    (¬ r.h < r.w → bsp_split_leaf (BSPNode.leaf wid r) nw =
      BSPNode.inner false (-1) r
        (BSPNode.leaf wid ⟨r.x, r.y, r.w, r.h / 2⟩)
        (BSPNode.leaf nw ⟨r.x, r.y + r.h / 2, r.w, r.h / 2⟩)) ∧
    bsp_split_leaf (BSPNode.leaf 1 ⟨0, 0, 200, 100⟩) 2 =
      BSPNode.inner true (-1) ⟨0, 0, 200, 100⟩
        (BSPNode.leaf 1 ⟨0, 0, 100, 100⟩)
        (BSPNode.leaf 2 ⟨100, 0, 100, 100⟩) ∧
    bsp_split_leaf (BSPNode.leaf 1 ⟨0, 0, 100, 200⟩) 2 =
      BSPNode.inner false (-1) ⟨0, 0, 100, 200⟩
        (BSPNode.leaf 1 ⟨0, 0, 100, 100⟩)
        (BSPNode.leaf 2 ⟨0, 100, 100, 100⟩) ∧
    bsp_split_leaf (BSPNode.leaf 1 ⟨0, 0, 100, 100⟩) 2 =
      BSPNode.inner false (-1) ⟨0, 0, 100, 100⟩
        (BSPNode.leaf 1 ⟨0, 0, 100, 50⟩)
        (BSPNode.leaf 2 ⟨0, 50, 100, 50⟩) := by
  intro wid r nw
  refine ⟨fun h => ?_, fun h => ?_, by norm_num [bsp_split_leaf],
    by norm_num [bsp_split_leaf], by norm_num [bsp_split_leaf]⟩
  · show (if r.w > r.h then _ else _) = _
    rw [if_pos h]
  · show (if r.w > r.h then _ else _) = _
    rw [if_neg h]

/-- Witness for C5 at the 200x100 leaf: the vertical branch applies. -/
theorem split_orientation_and_halving_witness :
    (100 : ℚ) < 200 ∧
    bsp_split_leaf (BSPNode.leaf 1 ⟨0, 0, 200, 100⟩) 2 =
      BSPNode.inner true (-1) ⟨0, 0, 200, 100⟩
        (BSPNode.leaf 1 ⟨0, 0, 200 / 2, 100⟩)
        (BSPNode.leaf 2 ⟨0 + 200 / 2, 0, 200 / 2, 100⟩) :=
  ⟨by norm_num, (split_orientation_and_halving 1 ⟨0, 0, 200, 100⟩ 2).1 (by norm_num)⟩

/-- C3, counterexample: in the tree built by inserting 1, 2, 3 into an
    800x600 root, the right neighbor of the leaf holding window 1 (path
    [false, false]) is the leaf holding window 2 (path [true]), but the
    left neighbor of that leaf is the leaf at path [false, true] (the
    one holding window 3), not the leaf holding window 1. -/
theorem neighbor_symmetry_counterexample :
    bsp_find_right_neighbor demoTree3 [false, false] = some [true] ∧
    nodeAt demoTree3 [false, false] = some (BSPNode.leaf 1 ⟨0, 0, 400, 300⟩) ∧
    nodeAt demoTree3 [true] = some (BSPNode.leaf 2 ⟨400, 0, 400, 600⟩) ∧
    bsp_find_left_neighbor demoTree3 [true] = some [false, true] ∧
    nodeAt demoTree3 [false, true] = some (BSPNode.leaf 3 ⟨0, 300, 400, 300⟩) ∧
    bsp_find_left_neighbor demoTree3 [true] ≠ some [false, false] := by
  rw [demoTree3_lit]
  refine ⟨?_, ?_, ?_, ?_, ?_, ?_⟩ <;> decide

/-- C6, counterexample: bsp_insert performs no membership check, so
    inserting window id 5 twice into an empty 800x600 root leaves two
    leaves holding id 5 - the uniqueness claim fails for unrestricted
    insert sequences. -/
theorem duplicate_insert_breaks_uniqueness :
    ¬ (countWith (applyOps (bsp_create_root demoRect)
        [WMOp.insertAt [] 5, WMOp.insertAt [] 5]) 5 ≤ 1) := by
  have h : applyOps (bsp_create_root demoRect)
      [WMOp.insertAt [] 5, WMOp.insertAt [] 5] =
        BSPNode.inner true (-1) ⟨0, 0, 800, 600⟩
          (BSPNode.leaf 5 ⟨0, 0, 400, 600⟩)
          (BSPNode.leaf 5 ⟨400, 0, 400, 600⟩) := by
    norm_num [applyOps, applyOp, applyAt, bsp_create_root, bsp_insert,
      bsp_split_leaf, demoRect]
  rw [h]
  decide

/-- C7, counterexample: the code conflates the empty state with the
    sentinel id -1, so inserting identifier -1 into a freshly created
    root is a silent no-op: the tree is unchanged and no leaf gains the
    identifier (the count of leaves carrying -1 does not grow by one). -/
theorem insert_sentinel_no_gain :
    bsp_insert (bsp_create_root demoRect) (-1) = bsp_create_root demoRect ∧
    ¬ (countWith (bsp_insert (bsp_create_root demoRect) (-1)) (-1) =
        countWith (bsp_create_root demoRect) (-1) + 1) := by
  exact ⟨by decide, by decide⟩

/-- C8, counterexample: bsp_find_neighbor dispatches on the first
    character of the direction string only, so the invalid token
    "lemon" is treated as "left" and returns a neighbor instead of the
    claimed none. -/
theorem invalid_direction_first_char_ce :
    "lemon" ∉ (["left", "right", "up", "down"] : List String) ∧
    bsp_find_neighbor demoTree2 [true] "lemon" = some [false] ∧
    bsp_find_neighbor demoTree2 [true] "lemon" ≠ none := by
  rw [demoTree2_lit]
  refine ⟨by decide, by decide, by decide⟩

/-- C9: when the window id is not held by any leaf of the (sub)tree,
    bsp_remove_window returns false and the tree is exactly unchanged:
    no window slot, rectangle or structural edge differs. -/
theorem remove_absent_is_noop (t : BSPNode) (w : ℤ) (hw : w ∉ leafIds t) :
    bsp_remove_window t w = (false, t) :=
  remove_not_found t w hw

/-- Witness for C9: removing id 99 from a concrete two-window tree that
    does not contain it. -/
theorem remove_absent_is_noop_witness :
    (99 : ℤ) ∉ leafIds (BSPNode.inner true (-1) ⟨0, 0, 2, 1⟩
        (BSPNode.leaf 1 ⟨0, 0, 1, 1⟩) (BSPNode.leaf 2 ⟨1, 0, 1, 1⟩)) ∧
    bsp_remove_window (BSPNode.inner true (-1) ⟨0, 0, 2, 1⟩
        (BSPNode.leaf 1 ⟨0, 0, 1, 1⟩) (BSPNode.leaf 2 ⟨1, 0, 1, 1⟩)) 99 =
      (false, BSPNode.inner true (-1) ⟨0, 0, 2, 1⟩
        (BSPNode.leaf 1 ⟨0, 0, 1, 1⟩) (BSPNode.leaf 2 ⟨1, 0, 1, 1⟩)) :=
  ⟨by decide,
   remove_absent_is_noop (BSPNode.inner true (-1) ⟨0, 0, 2, 1⟩
     (BSPNode.leaf 1 ⟨0, 0, 1, 1⟩) (BSPNode.leaf 2 ⟨1, 0, 1, 1⟩)) 99 (by decide)⟩

/-- C10: no operation of the bsp.c API ever modifies the rectangle of
    the root after bsp_create_root; in particular collapse copies the
    promoted child leaf/window/orientation state but never the rect. -/
theorem root_rect_never_modified :
    (∀ (r : CGRect) (ops : List WMOp),
      rootRect (applyOps (bsp_create_root r) ops) = r) ∧
    (∀ t : BSPNode, rootRect (bsp_collapse_empty_branches t) = rootRect t) :=
  ⟨fun r ops => rootRect_applyOps (bsp_create_root r) ops,
   rootRect_collapse⟩

/-- C7 (amended): for every identifier different from the in-code empty
    marker -1, bsp_insert makes exactly one leaf gain the identifier:
    the count of leaves holding it grows by exactly one, the affected
    leaf is the first leaf in depth-first order, and the shape of the
    tree (rectangles, orientations, structure) changes only when that
    leaf was already occupied. For identifier -1 itself the insert into
    an empty leaf is a silent no-op (see the counterexample), which is
    what the amendment excludes. -/
theorem insert_gains_exactly_one (t : BSPNode) (w : ℤ) (hw : w ≠ -1) :
    countWith (bsp_insert t w) w = countWith t w + 1 ∧
    ∃ wid rest, leafIds t = wid :: rest ∧
      ((wid = -1 ∧ leafIds (bsp_insert t w) = w :: rest ∧
        eraseIds (bsp_insert t w) = eraseIds t) ∨
       (wid ≠ -1 ∧ leafIds (bsp_insert t w) = wid :: w :: rest)) :=
  ⟨by simpa using insert_countWith t w w hw, insert_leafIds t w⟩

/-- Witness for C7 at the empty 800x600 root and identifier 7. -/
theorem insert_gains_exactly_one_witness :
    (7 : ℤ) ≠ -1 ∧
    countWith (bsp_insert (bsp_create_root demoRect) 7) 7 =
      countWith (bsp_create_root demoRect) 7 + 1 ∧
    ∃ wid rest, leafIds (bsp_create_root demoRect) = wid :: rest ∧
      ((wid = -1 ∧ leafIds (bsp_insert (bsp_create_root demoRect) 7) = 7 :: rest ∧
        eraseIds (bsp_insert (bsp_create_root demoRect) 7) =
          eraseIds (bsp_create_root demoRect)) ∨
       (wid ≠ -1 ∧ leafIds (bsp_insert (bsp_create_root demoRect) 7) =
          wid :: 7 :: rest)) :=
  ⟨by decide, insert_gains_exactly_one (bsp_create_root demoRect) 7 (by decide)⟩

/-- Leaf-count of an internal node = sum over the two children. -/
lemma countWith_inner (sv : Bool) (wid : ℤ) (r : CGRect) (f s : BSPNode) (z : ℤ) :
    countWith (BSPNode.inner sv wid r f s) z = countWith f z + countWith s z := by
  simp [countWith, leafIds, List.count_append]

/-- A node passing the empty-leaf test of collapse is a leaf marked -1. -/
lemma isEmptyLeaf_true {t : BSPNode} (h : isEmptyLeaf t = true) :
    ∃ r, t = BSPNode.leaf (-1) r := by
  cases t with
  | leaf wid r =>
    simp only [isEmptyLeaf, beq_iff_eq] at h
    exact ⟨r, by rw [h]⟩
  | inner sv wid r f s => simp [isEmptyLeaf] at h

/-- bsp_collapse_empty_branches only ever discards leaves marked -1, so
    the count of every other id is unchanged. -/
lemma collapse_countWith (t : BSPNode) (z : ℤ) (hz : z ≠ -1) :
    countWith (bsp_collapse_empty_branches t) z = countWith t z := by
  have hm : ((-1 : ℤ) == z) = false :=
    beq_eq_false_iff_ne.mpr (fun h => hz h.symm)
  cases t with
  | leaf wid r => rfl
  | inner sv wid r f s =>
    simp only [bsp_collapse_empty_branches]
    split_ifs with h1 h2
    · rw [Bool.and_eq_true] at h1
      obtain ⟨rf, hf⟩ := isEmptyLeaf_true h1.1
      subst hf
      cases s with
      | leaf wid2 r2 =>
        simp [countWith, leafIds, List.count_cons, List.count_append, hm]
      | inner sv2 wid2 r2 f2 s2 =>
        simp [countWith, leafIds, List.count_cons, List.count_append, hm]
    · rw [Bool.and_eq_true] at h2
      obtain ⟨rs, hs⟩ := isEmptyLeaf_true h2.1
      subst hs
      cases f with
      | leaf wid2 r2 =>
        simp [countWith, leafIds, List.count_cons, List.count_append, hm]
      | inner sv2 wid2 r2 f2 s2 =>
        simp [countWith, leafIds, List.count_cons, List.count_append, hm]
    · rfl

/-- When the id is present, bsp_remove_window reports success. -/
lemma remove_found_true (t : BSPNode) (w : ℤ) (hm : w ∈ leafIds t) :
    (bsp_remove_window t w).1 = true := by
  induction t with
  | leaf wid r =>
    have hwid : wid = w := by
      simp only [leafIds, List.mem_singleton] at hm
      exact hm.symm
    simp [bsp_remove_window, hwid]
  | inner sv wid r f s ihf ihs =>
    by_cases hf : w ∈ leafIds f
    · rcases h1 : bsp_remove_window f w with ⟨b1, f2⟩
      have hb : b1 = true := by
        have := ihf hf
        rw [h1] at this
        exact this
      subst hb
      simp [bsp_remove_window, h1]
    · have h1 : bsp_remove_window f w = (false, f) := remove_not_found f w hf
      have hs : w ∈ leafIds s := by
        rw [leafIds, List.mem_append] at hm
        exact hm.resolve_left hf
      rcases h2 : bsp_remove_window s w with ⟨b2, s2⟩
      have hb : b2 = true := by
        have := ihs hs
        rw [h2] at this
        exact this
      subst hb
      simp [bsp_remove_window, h1, h2]

/-- bsp_remove_window never increases the count of an id other than the
    -1 marker. -/
lemma remove_countWith_le (t : BSPNode) (w z : ℤ) (hz : z ≠ -1) :
    countWith (bsp_remove_window t w).2 z ≤ countWith t z := by
  have hm : ((-1 : ℤ) == z) = false :=
    beq_eq_false_iff_ne.mpr (fun h => hz h.symm)
  induction t with
  | leaf wid r =>
    by_cases h : wid = w
    · simp [bsp_remove_window, h, countWith, leafIds, List.count_cons, hm]
    · simp [bsp_remove_window, h]
  | inner sv wid r f s ihf ihs =>
    simp only [bsp_remove_window]
    rcases h1 : bsp_remove_window f w with ⟨b1, f2⟩
    cases b1 with
    | true =>
      have hf2 : countWith f2 z ≤ countWith f z := by
        have := ihf
        rw [h1] at this
        exact this
      calc countWith (bsp_collapse_empty_branches (BSPNode.inner sv wid r f2 s)) z
          = countWith (BSPNode.inner sv wid r f2 s) z := collapse_countWith _ z hz
        _ = countWith f2 z + countWith s z := countWith_inner ..
        _ ≤ countWith f z + countWith s z := Nat.add_le_add_right hf2 _
        _ = countWith (BSPNode.inner sv wid r f s) z := (countWith_inner ..).symm
    | false =>
      rcases h2 : bsp_remove_window s w with ⟨b2, s2⟩
      cases b2 with
      | true =>
        have hs2 : countWith s2 z ≤ countWith s z := by
          have := ihs
          rw [h2] at this
          exact this
        calc countWith (bsp_collapse_empty_branches (BSPNode.inner sv wid r f s2)) z
            = countWith (BSPNode.inner sv wid r f s2) z := collapse_countWith _ z hz
          _ = countWith f z + countWith s2 z := countWith_inner ..
          _ ≤ countWith f z + countWith s z := Nat.add_le_add_left hs2 _
          _ = countWith (BSPNode.inner sv wid r f s) z := (countWith_inner ..).symm
      | false => exact Nat.le_refl _

/-- A successful removal of an id other than -1 lowers its count by
    exactly one (the hit leaf is cleared; collapse discards only -1). -/
lemma remove_found_count (t : BSPNode) (w : ℤ) (hw : w ≠ -1)
    (hm : w ∈ leafIds t) :
    countWith (bsp_remove_window t w).2 w + 1 = countWith t w := by
  have hmw : ((-1 : ℤ) == w) = false :=
    beq_eq_false_iff_ne.mpr (fun h => hw h.symm)
  induction t with
  | leaf wid r =>
    have hwid : wid = w := by
      simp only [leafIds, List.mem_singleton] at hm
      exact hm.symm
    subst hwid
    simp [bsp_remove_window, countWith, leafIds, List.count_cons, hmw]
  | inner sv wid r f s ihf ihs =>
    by_cases hf : w ∈ leafIds f
    · rcases h1 : bsp_remove_window f w with ⟨b1, f2⟩
      have hb : b1 = true := by
        have := remove_found_true f w hf
        rw [h1] at this
        exact this
      subst hb
      have hrec : countWith f2 w + 1 = countWith f w := by
        have := ihf hf
        rw [h1] at this
        exact this
      simp only [bsp_remove_window, h1]
      rw [collapse_countWith _ w hw, countWith_inner, countWith_inner]
      omega
    · have h1 : bsp_remove_window f w = (false, f) := remove_not_found f w hf
      have hs : w ∈ leafIds s := by
        rw [leafIds, List.mem_append] at hm
        exact hm.resolve_left hf
      rcases h2 : bsp_remove_window s w with ⟨b2, s2⟩
      have hb : b2 = true := by
        have := remove_found_true s w hs
        rw [h2] at this
        exact this
      subst hb
      have hrec : countWith s2 w + 1 = countWith s w := by
        have := ihs hs
        rw [h2] at this
        exact this
      simp only [bsp_remove_window, h1, h2]
      rw [collapse_countWith _ w hw, countWith_inner, countWith_inner]
      omega

/-- Removing an id that occurs at most once leaves it in no leaf. -/
lemma remove_at_root_clears (t : BSPNode) (w : ℤ) (hw : w ≠ -1)
    (hc : countWith t w ≤ 1) :
    countWith (bsp_remove_window t w).2 w = 0 := by
  by_cases hm : w ∈ leafIds t
  · have h := remove_found_count t w hw hm
    omega
  · rw [remove_not_found t w hm]
    exact List.count_eq_zero.mpr hm

/-- bsp_split_leaf leaves the count of every id other than the inserted
    one unchanged (the first child inherits the old window id). -/
lemma split_countWith_other (t : BSPNode) (w z : ℤ) (hzw : z ≠ w) :
    countWith (bsp_split_leaf t w) z = countWith t z := by
  have hwz : (w == z) = false := beq_eq_false_iff_ne.mpr (fun h => hzw h.symm)
  cases t with
  | leaf wid r =>
    simp only [bsp_split_leaf]
    split <;> simp [countWith, leafIds, List.count_cons, hwz]
  | inner sv wid r f s => rfl

/-- bsp_split_leaf adds at most one occurrence of the inserted id. -/
lemma split_countWith_self_le (t : BSPNode) (w : ℤ) :
    countWith (bsp_split_leaf t w) w ≤ countWith t w + 1 := by
  cases t with
  | leaf wid r =>
    simp only [bsp_split_leaf]
    split <;> simp [countWith, leafIds, List.count_cons] <;> rw [Nat.add_comm]
  | inner sv wid r f s => exact Nat.le_succ _

/-- applyAt either misses the tree (no-op) or rewrites the leaf-id list
    of exactly the addressed subtree in place. -/
lemma applyAt_decomp (p : List Bool) (g : BSPNode → BSPNode) (t : BSPNode) :
    applyAt p g t = t ∨
    ∃ l₁ l₂ sub, leafIds t = l₁ ++ (leafIds sub ++ l₂) ∧
      leafIds (applyAt p g t) = l₁ ++ (leafIds (g sub) ++ l₂) := by
  induction p generalizing t with
  | nil => exact Or.inr ⟨[], [], t, by simp, by simp [applyAt]⟩
  | cons b pr ih =>
    cases t with
    | leaf wid r =>
      left
      cases b <;> rfl
    | inner sv wid r f s =>
      cases b with
      | false =>
        rcases ih f with h | ⟨l₁, l₂, sub, h1, h2⟩
        · left
          simp only [applyAt, h]
        · refine Or.inr ⟨l₁, l₂ ++ leafIds s, sub, ?_, ?_⟩
          · simp [leafIds, h1]
          · simp [applyAt, leafIds, h2]
      | true =>
        rcases ih s with h | ⟨l₁, l₂, sub, h1, h2⟩
        · left
          simp only [applyAt, h]
        · refine Or.inr ⟨leafIds f ++ l₁, l₂, sub, ?_, ?_⟩
          · simp [leafIds, h1]
          · simp [applyAt, leafIds, h2]

/-- applyAt with a count-nonincreasing transformation. -/
lemma applyAt_countWith_le (p : List Bool) (g : BSPNode → BSPNode)
    (t : BSPNode) (z : ℤ) (hg : ∀ u, countWith (g u) z ≤ countWith u z) :
    countWith (applyAt p g t) z ≤ countWith t z := by
  rcases applyAt_decomp p g t with h | ⟨l₁, l₂, sub, h1, h2⟩
  · rw [h]
  · have h3 := hg sub
    simp only [countWith] at h3 ⊢
    rw [h1, h2]
    simp only [List.count_append]
    omega

/-- applyAt with a transformation adding at most one occurrence. -/
lemma applyAt_countWith_le_add (p : List Bool) (g : BSPNode → BSPNode)
    (t : BSPNode) (z : ℤ) (hg : ∀ u, countWith (g u) z ≤ countWith u z + 1) :
    countWith (applyAt p g t) z ≤ countWith t z + 1 := by
  rcases applyAt_decomp p g t with h | ⟨l₁, l₂, sub, h1, h2⟩
  · rw [h]
    exact Nat.le_succ _
  · have h3 := hg sub
    simp only [countWith] at h3 ⊢
    rw [h1, h2]
    simp only [List.count_append]
    omega

/-- applyAt with a count-preserving transformation. -/
lemma applyAt_countWith_eq (p : List Bool) (g : BSPNode → BSPNode)
    (t : BSPNode) (z : ℤ) (hg : ∀ u, countWith (g u) z = countWith u z) :
    countWith (applyAt p g t) z = countWith t z := by
  rcases applyAt_decomp p g t with h | ⟨l₁, l₂, sub, h1, h2⟩
  · rw [h]
  · have h3 := hg sub
    simp only [countWith] at h3 ⊢
    rw [h1, h2]
    simp only [List.count_append]
    omega

/-- One well-behaved mutation keeps every id (other than -1) in at most
    one leaf. -/
lemma goodOp_countWith (t : BSPNode) (op : WMOp) (hop : goodOp t op)
    (hP : ∀ z, z ≠ -1 → countWith t z ≤ 1) :
    ∀ z, z ≠ -1 → countWith (applyOp t op) z ≤ 1 := by
  intro z hz
  cases op with
  | insertAt p w =>
    obtain ⟨hw, hfresh⟩ := hop
    by_cases hzw : z = w
    · have hb := applyAt_countWith_le_add p (fun n => bsp_insert n w) t z
        (fun u => by rw [insert_countWith u w z hz, if_pos hzw])
      calc countWith (applyOp t (WMOp.insertAt p w)) z
          ≤ countWith t z + 1 := hb
        _ = 1 := by rw [hzw, hfresh]
    · have hb := applyAt_countWith_eq p (fun n => bsp_insert n w) t z
        (fun u => by rw [insert_countWith u w z hz, if_neg hzw, Nat.add_zero])
      calc countWith (applyOp t (WMOp.insertAt p w)) z
          = countWith t z := hb
        _ ≤ 1 := hP z hz
  | splitAt p w =>
    obtain ⟨hw, hfresh⟩ := hop
    by_cases hzw : z = w
    · have hb := applyAt_countWith_le_add p (fun n => bsp_split_leaf n w) t z
        (fun u => by rw [hzw]; exact split_countWith_self_le u w)
      calc countWith (applyOp t (WMOp.splitAt p w)) z
          ≤ countWith t z + 1 := hb
        _ = 1 := by rw [hzw, hfresh]
    · have hb := applyAt_countWith_eq p (fun n => bsp_split_leaf n w) t z
        (fun u => split_countWith_other u w z hzw)
      calc countWith (applyOp t (WMOp.splitAt p w)) z
          = countWith t z := hb
        _ ≤ 1 := hP z hz
  | removeAt p w =>
    have hb := applyAt_countWith_le p (fun n => (bsp_remove_window n w).2) t z
      (fun u => remove_countWith_le u w z hz)
    exact hb.trans (hP z hz)
  | collapseAt p =>
    have hb := applyAt_countWith_eq p bsp_collapse_empty_branches t z
      (fun u => collapse_countWith u z hz)
    exact hb.trans_le (hP z hz)

/-- Well-behaved sequences keep every id (other than -1) in at most one
    leaf. -/
lemma goodSeq_countWith {t : BSPNode} {ops : List WMOp}
    (hseq : GoodSeq t ops) :
    (∀ z, z ≠ -1 → countWith t z ≤ 1) →
    ∀ z, z ≠ -1 → countWith (applyOps t ops) z ≤ 1 := by
  induction hseq with
  | nil t => exact fun hP => hP
  | cons hop hrest ih => exact fun hP => ih (goodOp_countWith _ _ hop hP)

/-- C6 (amended): after every sequence of bsp.c mutations, applied at
    arbitrary nodes of a tree created by bsp_create_root, in which
    every id handed to bsp_insert or bsp_split_leaf differs from the
    -1 marker and is not currently held by any leaf, no id other than
    -1 appears in more than one leaf; and removing an id (other than
    -1) at the root as a further step leaves it in no leaf. The
    freshness precondition is what the counterexample forces: the code
    itself never checks membership, so inserting an id twice duplicates
    it. -/
theorem uniqueness_under_fresh_inserts (r : CGRect) (ops : List WMOp)
    (hseq : GoodSeq (bsp_create_root r) ops) :
    (∀ z, z ≠ -1 → countWith (applyOps (bsp_create_root r) ops) z ≤ 1) ∧
    (∀ w, w ≠ -1 →
      countWith (applyOps (bsp_create_root r) (ops ++ [WMOp.removeAt [] w])) w
        = 0) := by
  have base : ∀ z, z ≠ -1 → countWith (bsp_create_root r) z ≤ 1 := by
    intro z _
    have : leafIds (bsp_create_root r) = [-1] := rfl
    calc countWith (bsp_create_root r) z
        ≤ (leafIds (bsp_create_root r)).length := List.count_le_length z _
      _ = 1 := by rw [this, List.length_singleton]
  refine ⟨goodSeq_countWith hseq base, fun w hw => ?_⟩
  have h1 : countWith (applyOps (bsp_create_root r) ops) w ≤ 1 :=
    goodSeq_countWith hseq base w hw
  have h2 : applyOps (bsp_create_root r) (ops ++ [WMOp.removeAt [] w]) =
      (bsp_remove_window (applyOps (bsp_create_root r) ops) w).2 := by
    rw [applyOps, List.foldl_append]
    rfl
  rw [h2]
  exact remove_at_root_clears _ w hw h1

/-- Witness for C6: the two-step fresh insert sequence 1 then 2 on the
    800x600 root, checked for id 1 and its subsequent removal. -/
theorem uniqueness_under_fresh_inserts_witness :
    GoodSeq (bsp_create_root demoRect)
      [WMOp.insertAt [] 1, WMOp.insertAt [] 2] ∧
    countWith (applyOps (bsp_create_root demoRect)
      [WMOp.insertAt [] 1, WMOp.insertAt [] 2]) 1 ≤ 1 ∧
    countWith (applyOps (bsp_create_root demoRect)
      ([WMOp.insertAt [] 1, WMOp.insertAt [] 2] ++ [WMOp.removeAt [] 1])) 1
      = 0 := by
  have hseq : GoodSeq (bsp_create_root demoRect)
      [WMOp.insertAt [] 1, WMOp.insertAt [] 2] := by
    refine GoodSeq.cons ?_ (GoodSeq.cons ?_ (GoodSeq.nil _))
    · exact (by decide :
        (1 : ℤ) ≠ -1 ∧ countWith (bsp_create_root demoRect) 1 = 0)
    · exact (by decide : (2 : ℤ) ≠ -1 ∧
        countWith (applyOp (bsp_create_root demoRect) (WMOp.insertAt [] 1)) 2
          = 0)
  have h := uniqueness_under_fresh_inserts demoRect
    [WMOp.insertAt [] 1, WMOp.insertAt [] 2] hseq
  exact ⟨hseq, h.1 1 (by decide), h.2 1 (by decide)⟩

/-- A tree whose leaves are all occupied fails the empty-leaf test. -/
lemma allOccupied_not_empty {t : BSPNode} (h : allLeavesOccupied t) :
    isEmptyLeaf t = false := by
  cases t with
  | leaf wid r =>
    have hw := h wid (by simp [leafIds])
    simp [isEmptyLeaf, hw]
  | inner sv wid r f s => rfl

/-- Both subtrees of a fully occupied internal node are fully occupied. -/
lemma allOccupied_parts {sv : Bool} {wid : ℤ} {r : CGRect} {f s : BSPNode}
    (h : allLeavesOccupied (BSPNode.inner sv wid r f s)) :
    allLeavesOccupied f ∧ allLeavesOccupied s := by
  constructor <;> intro z hz
  · exact h z (by rw [leafIds, List.mem_append]; exact Or.inl hz)
  · exact h z (by rw [leafIds, List.mem_append]; exact Or.inr hz)

/-- Rebuilding a fully occupied internal node from fully occupied parts. -/
lemma allOccupied_intro {f s : BSPNode} (sv : Bool) (wid : ℤ) (r : CGRect)
    (hf : allLeavesOccupied f) (hs : allLeavesOccupied s) :
    allLeavesOccupied (BSPNode.inner sv wid r f s) := by
  intro z hz
  rw [leafIds, List.mem_append] at hz
  rcases hz with hz | hz
  · exact hf z hz
  · exact hs z hz

/-- Collapse is the identity when neither child is an empty leaf. -/
lemma collapse_noop {f s : BSPNode} (sv : Bool) (wid : ℤ) (r : CGRect)
    (hf : isEmptyLeaf f = false) (hs : isEmptyLeaf s = false) :
    bsp_collapse_empty_branches (BSPNode.inner sv wid r f s) =
      BSPNode.inner sv wid r f s := by
  simp [bsp_collapse_empty_branches, hf, hs]

/-- Inserting a non-marker id into a fully occupied tree keeps every
    leaf occupied. -/
lemma insert_full (t : BSPNode) (w : ℤ) (hw : w ≠ -1)
    (ht : allLeavesOccupied t) : allLeavesOccupied (bsp_insert t w) := by
  obtain ⟨wid, rest, hids, hcase⟩ := insert_leafIds t w
  rcases hcase with ⟨h1, _, _⟩ | ⟨_, h2⟩
  · exact absurd h1 (ht wid (by rw [hids]; exact List.mem_cons_self wid rest))
  · intro z hz
    rw [h2] at hz
    rcases List.mem_cons.mp hz with rfl | hz2
    · exact ht z (by rw [hids]; exact List.mem_cons_self z rest)
    · rcases List.mem_cons.mp hz2 with rfl | hz3
      · exact hw
      · exact ht z (by rw [hids]; exact List.mem_cons_of_mem wid hz3)

/-- On a fully occupied tree, one insert appends the new id to the leaf
    ids up to permutation. -/
lemma insert_perm (t : BSPNode) (w : ℤ) (ht : allLeavesOccupied t) :
    (leafIds (bsp_insert t w)).Perm (leafIds t ++ [w]) := by
  obtain ⟨wid, rest, hids, hcase⟩ := insert_leafIds t w
  rcases hcase with ⟨h1, _, _⟩ | ⟨_, h2⟩
  · exact absurd h1 (ht wid (by rw [hids]; exact List.mem_cons_self wid rest))
  · rw [h2, hids]
    exact List.Perm.cons wid (List.perm_append_singleton w rest).symm

/-- Inserting a list of fresh non-marker ids into a fully occupied tree:
    the tree stays fully occupied, the leaf ids extend by the inserted
    list up to permutation, and the root rectangle is unchanged. -/
lemma insertAll_props (ws : List ℤ) (t : BSPNode)
    (hws : ∀ w ∈ ws, w ≠ -1) (ht : allLeavesOccupied t) :
    allLeavesOccupied (insertAll t ws) ∧
    (leafIds (insertAll t ws)).Perm (leafIds t ++ ws) ∧
    rootRect (insertAll t ws) = rootRect t := by
  induction ws generalizing t with
  | nil => exact ⟨ht, by simp [insertAll], rfl⟩
  | cons w ws ih =>
    have hw := hws w (List.mem_cons_self w ws)
    have hful := insert_full t w hw ht
    obtain ⟨ha, hb, hc⟩ :=
      ih (bsp_insert t w) (fun x hx => hws x (List.mem_cons_of_mem w hx)) hful
    refine ⟨ha, ?_, hc.trans (rootRect_insert t w)⟩
    have hstep : insertAll t (w :: ws) = insertAll (bsp_insert t w) ws := rfl
    rw [hstep]
    have hmid : (leafIds (bsp_insert t w) ++ ws).Perm
        (leafIds t ++ (w :: ws)) := by
      have h1 := List.Perm.append_right ws (insert_perm t w ht)
      have h2 : (leafIds t ++ [w]) ++ ws = leafIds t ++ (w :: ws) := by simp
      rw [h2] at h1
      exact h1
    exact hb.trans hmid

/-- Main removal lemma on fully occupied trees: removing a present id
    succeeds, and either the tree was the single leaf holding it (and
    becomes the empty leaf with the same rectangle), or the tree stays
    fully occupied, loses exactly that id from its leaf list, and keeps
    its root rectangle. -/
lemma remove_full (t : BSPNode) (w : ℤ) (hfull : allLeavesOccupied t)
    (hm : w ∈ leafIds t) :
    (bsp_remove_window t w).1 = true ∧
    ((leafIds t = [w] ∧
      (bsp_remove_window t w).2 = BSPNode.leaf (-1) (rootRect t)) ∨
     (2 ≤ (leafIds t).length ∧
      allLeavesOccupied (bsp_remove_window t w).2 ∧
      leafIds (bsp_remove_window t w).2 = (leafIds t).erase w ∧
      rootRect (bsp_remove_window t w).2 = rootRect t)) := by
  refine ⟨remove_found_true t w hm, ?_⟩
  induction t with
  | leaf wid r =>
    have hwid : wid = w := by
      simp only [leafIds, List.mem_singleton] at hm
      exact hm.symm
    subst hwid
    left
    exact ⟨rfl, by simp [bsp_remove_window, rootRect]⟩
  | inner sv wid r f s ihf ihs =>
    obtain ⟨hff, hfs⟩ := allOccupied_parts hfull
    have hlen : 2 ≤ (leafIds (BSPNode.inner sv wid r f s)).length := by
      have h1 : 0 < (leafIds f).length :=
        List.length_pos.mpr (leafIds_ne_nil f)
      have h2 : 0 < (leafIds s).length :=
        List.length_pos.mpr (leafIds_ne_nil s)
      rw [leafIds, List.length_append]
      omega
    by_cases hf : w ∈ leafIds f
    · rcases h1 : bsp_remove_window f w with ⟨b1, f2⟩
      have hb : b1 = true := by
        have := remove_found_true f w hf
        rw [h1] at this
        exact this
      subst hb
      have hrec := ihf hff hf
      rw [h1] at hrec
      right
      refine ⟨hlen, ?_⟩
      rcases hrec with ⟨hidf, hf2⟩ | ⟨_, hocc2, hile, _⟩
      · -- the whole first subtree vanishes: collapse promotes s
        subst hf2
        have hes : isEmptyLeaf s = false := allOccupied_not_empty hfs
        have hres : (bsp_remove_window (BSPNode.inner sv wid r f s) w).2 =
            bsp_collapse_empty_branches
              (BSPNode.inner sv wid r (BSPNode.leaf (-1) (rootRect f)) s) := by
          simp [bsp_remove_window, h1]
        rw [hres]
        have herase : (leafIds (BSPNode.inner sv wid r f s)).erase w =
            leafIds s := by
          rw [leafIds, hidf]
          simp [List.erase_cons_head]
        cases s with
        | leaf wid2 r2 =>
          have hcol : bsp_collapse_empty_branches
              (BSPNode.inner sv wid r (BSPNode.leaf (-1) (rootRect f))
                (BSPNode.leaf wid2 r2)) = BSPNode.leaf wid2 r := by
            have hw2 : ¬ wid2 = -1 := hfs wid2 (by simp [leafIds])
            simp [bsp_collapse_empty_branches, isEmptyLeaf, hw2]
          rw [hcol, herase]
          refine ⟨?_, rfl, rfl⟩
          intro z hz
          simp only [leafIds, List.mem_singleton] at hz
          subst hz
          exact hfs z (by simp [leafIds])
        | inner sv2 wid2 r2 f2 s2 =>
          have hcol : bsp_collapse_empty_branches
              (BSPNode.inner sv wid r (BSPNode.leaf (-1) (rootRect f))
                (BSPNode.inner sv2 wid2 r2 f2 s2)) =
              BSPNode.inner sv2 wid2 r f2 s2 := by
            simp [bsp_collapse_empty_branches, isEmptyLeaf]
          rw [hcol, herase]
          refine ⟨?_, rfl, rfl⟩
          intro z hz
          exact hfs z hz
      · -- first subtree survives: no collapse happens
        have hef2 : isEmptyLeaf f2 = false := allOccupied_not_empty hocc2
        have hes : isEmptyLeaf s = false := allOccupied_not_empty hfs
        have hres : (bsp_remove_window (BSPNode.inner sv wid r f s) w).2 =
            BSPNode.inner sv wid r f2 s := by
          simp [bsp_remove_window, h1, collapse_noop sv wid r hef2 hes]
        rw [hres]
        refine ⟨allOccupied_intro sv wid r hocc2 hfs, ?_, rfl⟩
        rw [leafIds, leafIds, hile, List.erase_append_left _ hf]
    · have h1 : bsp_remove_window f w = (false, f) := remove_not_found f w hf
      have hs : w ∈ leafIds s := by
        rw [leafIds, List.mem_append] at hm
        exact hm.resolve_left hf
      rcases h2 : bsp_remove_window s w with ⟨b2, s2⟩
      have hb : b2 = true := by
        have := remove_found_true s w hs
        rw [h2] at this
        exact this
      subst hb
      have hrec := ihs hfs hs
      rw [h2] at hrec
      right
      refine ⟨hlen, ?_⟩
      rcases hrec with ⟨hids, hs2⟩ | ⟨_, hocc2, hile, _⟩
      · subst hs2
        have hef : isEmptyLeaf f = false := allOccupied_not_empty hff
        have hres : (bsp_remove_window (BSPNode.inner sv wid r f s) w).2 =
            bsp_collapse_empty_branches
              (BSPNode.inner sv wid r f (BSPNode.leaf (-1) (rootRect s))) := by
          simp [bsp_remove_window, h1, h2]
        rw [hres]
        have herase : (leafIds (BSPNode.inner sv wid r f s)).erase w =
            leafIds f := by
          rw [leafIds, hids, List.erase_append_right _ hf]
          simp [List.erase_cons_head]
        cases f with
        | leaf wid2 r2 =>
          have hcol : bsp_collapse_empty_branches
              (BSPNode.inner sv wid r (BSPNode.leaf wid2 r2)
                (BSPNode.leaf (-1) (rootRect s))) = BSPNode.leaf wid2 r := by
            have hw2 : ¬ wid2 = -1 := hff wid2 (by simp [leafIds])
            simp [bsp_collapse_empty_branches, isEmptyLeaf, hw2]
          rw [hcol, herase]
          refine ⟨?_, rfl, rfl⟩
          intro z hz
          simp only [leafIds, List.mem_singleton] at hz
          subst hz
          exact hff z (by simp [leafIds])
        | inner sv2 wid2 r2 f2 s2 =>
          have hcol : bsp_collapse_empty_branches
              (BSPNode.inner sv wid r (BSPNode.inner sv2 wid2 r2 f2 s2)
                (BSPNode.leaf (-1) (rootRect s))) =
              BSPNode.inner sv2 wid2 r f2 s2 := by
            simp [bsp_collapse_empty_branches, isEmptyLeaf]
          rw [hcol, herase]
          refine ⟨?_, rfl, rfl⟩
          intro z hz
          exact hff z hz
      · have hes2 : isEmptyLeaf s2 = false := allOccupied_not_empty hocc2
        have hef : isEmptyLeaf f = false := allOccupied_not_empty hff
        have hres : (bsp_remove_window (BSPNode.inner sv wid r f s) w).2 =
            BSPNode.inner sv wid r f s2 := by
          simp [bsp_remove_window, h1, h2, collapse_noop sv wid r hef hes2]
        rw [hres]
        refine ⟨allOccupied_intro sv wid r hff hocc2, ?_, rfl⟩
        rw [leafIds, leafIds, hile, List.erase_append_right _ hf]

/-- Removing ALL ids of a fully occupied tree, in any order given as a
    permutation of its leaf-id list, leaves a single empty leaf with
    the rectangle of the root. -/
lemma removeAll_perm (perm : List ℤ) :
    ∀ t : BSPNode, allLeavesOccupied t → (leafIds t).Perm perm →
      perm ≠ [] → removeAll t perm = BSPNode.leaf (-1) (rootRect t) := by
  induction perm with
  | nil => exact fun t _ _ h => absurd rfl h
  | cons w rest ih =>
    intro t hfull hperm _
    have hm : w ∈ leafIds t :=
      hperm.mem_iff.mpr (List.mem_cons_self w rest)
    obtain ⟨_, hcase⟩ := remove_full t w hfull hm
    cases rest with
    | nil =>
      have hids : leafIds t = [w] := List.perm_singleton.mp hperm
      rcases hcase with ⟨_, h2⟩ | ⟨hlen, _, _, _⟩
      · show removeAll (bsp_remove_window t w).2 [] = _
        rw [removeAll, List.foldl_nil, h2]
      · rw [hids] at hlen
        simp at hlen
    | cons w2 rest2 =>
      have hlen2 : 2 ≤ (leafIds t).length := by
        rw [hperm.length_eq]
        simp only [List.length_cons]
        omega
      rcases hcase with ⟨hids, _⟩ | ⟨_, hocc, hile, hrr⟩
      · rw [hids] at hlen2
        simp at hlen2
      · have hpermrest : (leafIds (bsp_remove_window t w).2).Perm
            (w2 :: rest2) := by
          rw [hile]
          have h3 := hperm.erase w
          rw [List.erase_cons_head] at h3
          exact h3
        have hrec := ih ((bsp_remove_window t w).2) hocc hpermrest (by simp)
        show removeAll (bsp_remove_window t w).2 (w2 :: rest2) = _
        rw [hrec, hrr]

/-- C2: inserting any list of distinct window ids (all different from
    the -1 marker) into a root created by bsp_create_root and then
    removing all of them with bsp_remove_window, in any order, leaves
    the tree as a single empty leaf whose rectangle is the rectangle
    the root was created with - that is, exactly bsp_create_root R. -/
theorem insert_remove_round_trip (R : CGRect) (ws perm : List ℤ)
    (hws : ∀ w ∈ ws, w ≠ -1) (hnd : ws.Nodup) (hperm : perm.Perm ws) :
    removeAll (insertAll (bsp_create_root R) ws) perm = bsp_create_root R := by
  cases ws with
  | nil =>
    have hp : perm = [] := List.perm_nil.mp hperm
    subst hp
    rfl
  | cons w1 ws1 =>
    have hw1 : w1 ≠ -1 := hws w1 (List.mem_cons_self w1 ws1)
    have hstep : insertAll (bsp_create_root R) (w1 :: ws1) =
        insertAll (BSPNode.leaf w1 R) ws1 := by
      show insertAll (bsp_insert (bsp_create_root R) w1) ws1 = _
      simp [bsp_insert, bsp_create_root]
    have hfull0 : allLeavesOccupied (BSPNode.leaf w1 R) := by
      intro z hz
      simp only [leafIds, List.mem_singleton] at hz
      subst hz
      exact hw1
    obtain ⟨hfull, hperm2, hrr⟩ := insertAll_props ws1 (BSPNode.leaf w1 R)
      (fun x hx => hws x (List.mem_cons_of_mem w1 hx)) hfull0
    rw [hstep]
    have hpermF : (leafIds (insertAll (BSPNode.leaf w1 R) ws1)).Perm perm := by
      have h1 : leafIds (BSPNode.leaf w1 R) ++ ws1 = w1 :: ws1 := rfl
      rw [h1] at hperm2
      exact hperm2.trans hperm.symm
    have hne : perm ≠ [] := by
      intro h
      subst h
      exact List.cons_ne_nil w1 ws1 (List.perm_nil.mp hperm.symm)
    have hfin := removeAll_perm perm (insertAll (BSPNode.leaf w1 R) ws1)
      hfull hpermF hne
    rw [hfin, hrr]
    rfl

/-- Witness for C2: three windows into the 800x600 root, removed in the
    order 2, 3, 1. -/
theorem insert_remove_round_trip_witness :
    (∀ w ∈ ([1, 2, 3] : List ℤ), w ≠ -1) ∧
    ([1, 2, 3] : List ℤ).Nodup ∧
    ([2, 3, 1] : List ℤ).Perm [1, 2, 3] ∧
    removeAll (insertAll (bsp_create_root demoRect) [1, 2, 3]) [2, 3, 1] =
      bsp_create_root demoRect :=
  ⟨by decide, by decide, by decide,
   insert_remove_round_trip demoRect [1, 2, 3] [2, 3, 1]
     (by decide) (by decide) (by decide)⟩

/-- The path to the leftmost leaf consists of first-child edges only. -/
lemma leftmostPath_all_false (t : BSPNode) :
    ∀ b ∈ leftmostPath t, b = false := by
  induction t with
  | leaf wid r => simp [leftmostPath]
  | inner sv wid r f s ihf ihs =>
    intro b hb
    simp only [leftmostPath, List.mem_cons] at hb
    rcases hb with rfl | hb
    · rfl
    · exact ihf b hb

/-- The upward walk of bsp_find_left_neighbor skips every step that
    came up through a first child (walking out of a leftmost descent
    never triggers the left-neighbor condition). -/
lemma upSearchLeft_skip (t : BSPNode) (l tail : List Bool)
    (hl : ∀ b ∈ l, b = false) :
    upSearchLeft t (l ++ tail) = upSearchLeft t tail := by
  induction l with
  | nil => rfl
  | cons b l ih =>
    have hb : b = false := hl b (List.mem_cons_self b l)
    subst hb
    have hrest : ∀ x ∈ l, x = false := fun x hx => hl x (List.mem_cons_of_mem _ hx)
    show upSearchLeft t (false :: (l ++ tail)) = _
    cases hn : nodeAt t (l ++ tail).reverse with
    | none =>
      rw [upSearchLeft, hn]
      exact ih hrest
    | some node =>
      cases node with
      | leaf wid r =>
        rw [upSearchLeft, hn]
        exact ih hrest
      | inner sv wid r f s =>
        cases sv with
        | false =>
          rw [upSearchLeft, hn]
          exact ih hrest
        | true =>
          rw [upSearchLeft, hn]
          show (if false = true then _ else upSearchLeft t (l ++ tail)) = _
          rw [if_neg Bool.false_ne_true]
          exact ih hrest

/-- Arriving from the second child of a vertical split, the left
    neighbor search returns the rightmost leaf of the first child. -/
lemma upSearchLeft_at_split (t : BSPNode) (prerev : List Bool) (wid : ℤ)
    (r : CGRect) (f s : BSPNode)
    (hn : nodeAt t prerev.reverse = some (BSPNode.inner true wid r f s)) :
    upSearchLeft t (true :: prerev) =
      some (prerev.reverse ++ false :: rightmostPath f) := by
  simp [upSearchLeft, hn]

/-- Success characterization of the right-neighbor walk: the walk found
    a vertical ancestor entered through its first child and returned
    the leftmost leaf of the second child. -/
lemma upSearchRight_some (t : BSPNode) :
    ∀ l q : List Bool, upSearchRight t l = some q →
    ∃ l₂ restp wid r f s, l = l₂ ++ false :: restp ∧
      nodeAt t restp.reverse = some (BSPNode.inner true wid r f s) ∧
      q = restp.reverse ++ true :: leftmostPath s := by
  intro l
  induction l with
  | nil =>
    intro q h
    exact absurd h (by simp [upSearchRight])
  | cons b rest ih =>
    intro q h
    have hstep : ∀ hrec : upSearchRight t rest = some q,
        ∃ l₂ restp wid r f s, b :: rest = l₂ ++ false :: restp ∧
          nodeAt t restp.reverse = some (BSPNode.inner true wid r f s) ∧
          q = restp.reverse ++ true :: leftmostPath s := by
      intro hrec
      obtain ⟨l₂, restp, wid, r, f, s, h1, h2, h3⟩ := ih q hrec
      exact ⟨b :: l₂, restp, wid, r, f, s, by rw [h1]; rfl, h2, h3⟩
    cases hn : nodeAt t rest.reverse with
    | none =>
      rw [upSearchRight, hn] at h
      exact hstep h
    | some node =>
      cases node with
      | leaf wid r =>
        rw [upSearchRight, hn] at h
        exact hstep h
      | inner sv wid0 r0 f0 s0 =>
        cases sv with
        | false =>
          rw [upSearchRight, hn] at h
          exact hstep h
        | true =>
          rw [upSearchRight, hn] at h
          cases b with
          | false =>
            have hq : some (rest.reverse ++ true :: leftmostPath s0) =
                some q := h
            exact ⟨[], rest, wid0, r0, f0, s0, rfl, hn,
              (Option.some_injective _ hq).symm⟩
          | true =>
            have hrec : upSearchRight t rest = some q := h
            exact hstep hrec

/-- C3 (amended): if bsp_find_right_neighbor on leaf A returns leaf B,
    then the search crossed a vertical ancestor P entered from its
    first child, B is the leftmost leaf of the second child of P, and
    bsp_find_left_neighbor on B always returns the RIGHTMOST leaf of
    the first child of P - which is A exactly when A is that rightmost
    leaf (in particular whenever no split intervenes between A and P),
    but not in general: see the counterexample, where a horizontal
    split inside the first child makes the left neighbor of B a
    different leaf. -/
theorem right_neighbor_left_neighbor_amended (t : BSPNode) (p q : List Bool)
    (h : bsp_find_right_neighbor t p = some q) :
    ∃ pre suffix wid r f s,
      nodeAt t pre = some (BSPNode.inner true wid r f s) ∧
      p = pre ++ false :: suffix ∧
      q = pre ++ true :: leftmostPath s ∧
      bsp_find_left_neighbor t q = some (pre ++ false :: rightmostPath f) ∧
      (suffix = rightmostPath f → bsp_find_left_neighbor t q = some p) := by
  obtain ⟨l₂, restp, wid, r, f, s, h1, h2, h3⟩ :=
    upSearchRight_some t p.reverse q h
  have hp : p = restp.reverse ++ false :: l₂.reverse := by
    have hr := congrArg List.reverse h1
    rw [List.reverse_reverse] at hr
    rw [hr]
    simp
  have hql : bsp_find_left_neighbor t q =
      some (restp.reverse ++ false :: rightmostPath f) := by
    rw [bsp_find_left_neighbor, h3]
    have hqrev : (restp.reverse ++ true :: leftmostPath s).reverse =
        (leftmostPath s).reverse ++ (true :: restp) := by simp
    rw [hqrev]
    rw [upSearchLeft_skip t (leftmostPath s).reverse (true :: restp)
      (fun b hb => leftmostPath_all_false s b (List.mem_reverse.mp hb))]
    exact upSearchLeft_at_split t restp wid r f s h2
  refine ⟨restp.reverse, l₂.reverse, wid, r, f, s, h2, hp, h3, hql, ?_⟩
  intro hsuf
  rw [hql, hp, hsuf]

/-- Witness for C3 at the two-window tree (a vertical split with
    windows 1 and 2): the right neighbor of the first leaf is the
    second leaf, and the amended conclusion applies. -/
theorem right_neighbor_left_neighbor_amended_witness :
    bsp_find_right_neighbor
      (BSPNode.inner true (-1) ⟨0, 0, 800, 600⟩
        (BSPNode.leaf 1 ⟨0, 0, 400, 600⟩)
        (BSPNode.leaf 2 ⟨400, 0, 400, 600⟩)) [false] = some [true] ∧
    ∃ pre suffix wid r f s,
      nodeAt (BSPNode.inner true (-1) ⟨0, 0, 800, 600⟩
        (BSPNode.leaf 1 ⟨0, 0, 400, 600⟩)
        (BSPNode.leaf 2 ⟨400, 0, 400, 600⟩)) pre =
          some (BSPNode.inner true wid r f s) ∧
      [false] = pre ++ false :: suffix ∧
      [true] = pre ++ true :: leftmostPath s ∧
      bsp_find_left_neighbor (BSPNode.inner true (-1) ⟨0, 0, 800, 600⟩
        (BSPNode.leaf 1 ⟨0, 0, 400, 600⟩)
        (BSPNode.leaf 2 ⟨400, 0, 400, 600⟩)) [true] =
          some (pre ++ false :: rightmostPath f) ∧
      (suffix = rightmostPath f →
        bsp_find_left_neighbor (BSPNode.inner true (-1) ⟨0, 0, 800, 600⟩
          (BSPNode.leaf 1 ⟨0, 0, 400, 600⟩)
          (BSPNode.leaf 2 ⟨400, 0, 400, 600⟩)) [true] = some [false]) :=
  ⟨by decide,
   right_neighbor_left_neighbor_amended
     (BSPNode.inner true (-1) ⟨0, 0, 800, 600⟩
       (BSPNode.leaf 1 ⟨0, 0, 400, 600⟩)
       (BSPNode.leaf 2 ⟨400, 0, 400, 600⟩)) [false] [true] (by decide)⟩

/-- C8 (amended): bsp_find_neighbor returns none, without touching the
    tree, for every direction string whose FIRST character is none of
    the four initials l, r, u, d - the empty string included. A
    malformed token that shares its first character with a valid one
    ("lemon") is instead treated as that direction, which is what the
    counterexample forces the claim to concede. -/
theorem neighbor_invalid_first_char_none (t : BSPNode) (p : List Bool)
    (d : String)
    (h : ∀ c, d.data.head? = some c →
      c ≠ 'l' ∧ c ≠ 'r' ∧ c ≠ 'u' ∧ c ≠ 'd') :
    bsp_find_neighbor t p d = none := by
  cases hd : d.data with
  | nil => simp [bsp_find_neighbor, hd]
  | cons c cs =>
    obtain ⟨h1, h2, h3, h4⟩ := h c (by rw [hd]; rfl)
    simp [bsp_find_neighbor, hd, h1, h2, h3, h4]

/-- Witness for C8 with the direction string "sideways" on the fresh
    800x600 root. -/
theorem neighbor_invalid_first_char_none_witness :
    (∀ c, ("sideways" : String).data.head? = some c →
      c ≠ 'l' ∧ c ≠ 'r' ∧ c ≠ 'u' ∧ c ≠ 'd') ∧
    bsp_find_neighbor (bsp_create_root demoRect) [] "sideways" = none := by
  have hyp : ∀ c, ("sideways" : String).data.head? = some c →
      c ≠ 'l' ∧ c ≠ 'r' ∧ c ≠ 'u' ∧ c ≠ 'd' := by
    intro c hc
    have hs : ("sideways" : String).data.head? = some 's' := rfl
    rw [hs] at hc
    injection hc with hc2
    subst hc2
    decide
  exact ⟨hyp, neighbor_invalid_first_char_none (bsp_create_root demoRect)
    [] "sideways" hyp⟩

end PengWM
